import Mathlib

/-!
Verification of the desktop media engine (voice/screen pipelines).

Shallow embedding of the relevant parts of the Rust sources under
`src/desktop/src-tauri/src/`:

- voice/audio_capture.rs : the RTP sequence/timestamp bookkeeping of the
  Opus encode task;
- voice/speaking.rs : the RMS + EMA + hold-timer speaking detector;
- voice/resampler.rs : the interleave/pad/re-interleave resampler wrapper;
- screen/mod.rs : the `screen_start` command and engine lifecycle;
- screen/peer.rs : the codecs and local tracks of the screen peer;
- screen/capture.rs : alpha-crop detection, BGRA to I420 conversion and the
  H.264 encoder configuration of the capture loop;
- screen/encoder.rs : the software encoder configuration;
- voice/mod.rs : the `voice_list_devices` command.

Machine integers (u16, u32) are modelled as naturals reduced modulo the
word size where wrap matters; f32/f64 values are modelled as exact
rationals; byte slices are modelled by a length plus an index function.
-/

/-! ## Voice encode task: RTP state (voice/audio_capture.rs) -/

/-- RTP counters of the voice encode task (`AudioCapture::start`):
`sequence: u16` and `timestamp: u32`, kept as naturals that the step
function reduces modulo 2^16 / 2^32. -/
structure RtpState where
  sequence : Nat
  timestamp : Nat
deriving DecidableEq, Repr

/-- The RTP packet header fields the encode task fills in
(voice/audio_capture.rs lines 213-226); the Opus payload bytes are
abstracted away. -/
structure RtpPacketHeader where
  payload_type : Nat
  sequence_number : Nat
  timestamp : Nat
  ssrc : Nat
deriving DecidableEq, Repr

/-- 20 ms of audio at 48 kHz: (48000 * 20) / 1000 samples. -/
def OPUS_FRAME_SAMPLES : Nat := 960

/-- One steady-state iteration of the per-frame body of the encode loop
(voice/audio_capture.rs lines 174-237), restricted to its RTP effects.
`muted` is the value read from the atomic mute flag; `encodeOk` tells
whether `encoder.encode` succeeded (on error the code logs and skips the
frame without touching sequence or timestamp).  Returns the new counters
and the packet written to the track, if any.  When muted the code adds
960 to the timestamp and `continue`s: no packet is built and the
sequence is left unchanged. -/
def encodeFrameStep (muted : Bool) (encodeOk : Bool) (st : RtpState) :
    RtpState × Option RtpPacketHeader :=
  if muted then
    ({ st with timestamp := (st.timestamp + OPUS_FRAME_SAMPLES) % 2 ^ 32 }, none)
  else if encodeOk then
    ({ sequence := (st.sequence + 1) % 2 ^ 16,
       timestamp := (st.timestamp + OPUS_FRAME_SAMPLES) % 2 ^ 32 },
     some { payload_type := 111, sequence_number := st.sequence,
            timestamp := st.timestamp, ssrc := 0 })
  else
    (st, none)

/-! ## Screen engine lifecycle (screen/mod.rs) -/

/-- The fields of `ScreenEngine` (screen/mod.rs lines 16-21) that the
lifecycle claims are about: whether a peer is stored, the stored MJPEG
server (identified by its bound port), whether the event-forwarding task
handle is stored, and whether a capture session task is running. -/
structure ScreenEngineState where
  peer : Bool
  mjpeg_server : Option Nat
  event_handle : Bool
  capture_running : Bool
deriving DecidableEq, Repr

/-- `ScreenEngine::stop` (screen/mod.rs lines 33-47): stops capture, takes
and stops the MJPEG server, aborts the event loop, takes and closes the
peer. -/
def ScreenEngineState.stop (_st : ScreenEngineState) : ScreenEngineState :=
  { peer := false, mjpeg_server := none, event_handle := false,
    capture_running := false }

/-- The Idle engine: nothing stored, nothing running. -/
def idleEngine : ScreenEngineState :=
  { peer := false, mjpeg_server := none, event_handle := false,
    capture_running := false }

/-- `screen_start` (screen/mod.rs lines 57-104).  The outcomes of the three
fallible setup steps are inputs: `portal` (`portal_start_screencast`),
`mjpeg` (`MjpegServer::start`, carrying the bound port on success) and
`peerRes` (`ScreenPeer::new`).  The code stops any existing session first,
then runs the portal, then starts and stores the MJPEG server, then creates
the peer, and only then starts capture, stores the event task and the
peer. -/
def screen_start (st : ScreenEngineState) (portal : Except String Unit)
    (mjpeg : Except String Nat) (peerRes : Except String Unit) :
    ScreenEngineState × Except String Nat :=
  let st1 := st.stop
  match portal with
  | .error e => (st1, .error e)
  | .ok _ =>
    match mjpeg with
    | .error e => (st1, .error e)
    | .ok port =>
      let st2 := { st1 with mjpeg_server := some port }
      match peerRes with
      | .error e => (st2, .error e)
      | .ok _ =>
        ({ st2 with capture_running := true, event_handle := true,
                    peer := true }, .ok port)

/-! ## Screen peer codecs and local tracks (screen/peer.rs) -/

/-- How a local track hands media to the peer library: a sample track
(`TrackLocalStaticSample`, library packetises) or a raw RTP track
(`TrackLocalStaticRTP`). -/
inductive TrackKind
  | sample
  | rawRtp
deriving DecidableEq, Repr

/-- The codec capability fields registered with the media engine
(screen/peer.rs lines 33-63). -/
structure CodecParams where
  mime_type : String
  clock_rate : Nat
  channels : Nat
  sdp_fmtp_line : String
  payload_type : Nat
deriving DecidableEq, Repr

/-- A local track as created in `ScreenPeer::new`. -/
structure LocalTrack where
  kind : TrackKind
  mime_type : String
  track_id : String
  stream_id : String
deriving DecidableEq, Repr

/-- The two codecs `ScreenPeer::new` registers (screen/peer.rs 33-63). -/
def screenPeerCodecs : List CodecParams :=
  [{ mime_type := "video/H264", clock_rate := 90000, channels := 0,
     sdp_fmtp_line := "level-asymmetry-allowed=1;packetization-mode=1;profile-level-id=42e01f",
     payload_type := 102 },
   { mime_type := "audio/opus", clock_rate := 48000, channels := 2,
     sdp_fmtp_line := "minptime=10;useinbandfec=1;usedtx=1;maxaveragebitrate=128000",
     payload_type := 111 }]

/-- The send-only local tracks created and added in `ScreenPeer::new`
(screen/peer.rs lines 85-106): a single `TrackLocalStaticSample` H.264
video track is created and added via `pc.add_track`.  No audio track is
created or added anywhere in `ScreenPeer::new`, and `ScreenPeer` has no
`audio_track` field, even though `screen/mod.rs` line 90 reads
`peer.audio_track`. -/
def screenPeerLocalTracks : List LocalTrack :=
  [{ kind := .sample, mime_type := "video/H264", track_id := "video",
     stream_id := "screen" }]

/-! ## Encoder configurations (screen/encoder.rs, screen/capture.rs) -/

/-- openh264 usage types used by this repository. -/
inductive UsageType
  | CameraVideoRealTime
  | ScreenContentRealTime
deriving DecidableEq, Repr

/-- openh264 rate-control modes used by this repository. -/
inductive RateControlMode
  | Quality
  | Bitrate
deriving DecidableEq, Repr

/-- The openh264 `EncoderConfig` fields this repository sets through the
builder; the frame rate (an f32 in the source) is modelled as an exact
rational. -/
structure EncoderConfig where
  bitrate_bps : Nat
  usage_type : UsageType
  max_frame_rate : ℚ
  enable_skip_frame : Bool
  rate_control_mode : RateControlMode
deriving DecidableEq, Repr

/-- The configuration built by `SoftwareEncoder::new`
(screen/encoder.rs lines 27-34). -/
def softwareEncoderConfig (bitrate_kbps : Nat) : EncoderConfig :=
  { bitrate_bps := bitrate_kbps * 1000,
    usage_type := .ScreenContentRealTime,
    max_frame_rate := 60,
    enable_skip_frame := false,
    rate_control_mode := .Bitrate }

/-- `BITRATE_KBPS` from screen/capture.rs line 12. -/
def BITRATE_KBPS : Nat := 5000

/-- The configuration built in the capture encode loop
(screen/capture.rs lines 166-171). -/
def runCaptureEncoderConfig : EncoderConfig :=
  { bitrate_bps := BITRATE_KBPS * 1000,
    usage_type := .ScreenContentRealTime,
    max_frame_rate := 30,
    enable_skip_frame := false,
    rate_control_mode := .Bitrate }

/-! ## Device listing (voice/mod.rs) -/

/-- `AudioDeviceInfo` from voice/types.rs. -/
structure AudioDeviceInfo where
  name : String
  is_default : Bool
deriving DecidableEq, Repr

/-- `AudioDeviceList` from voice/types.rs. -/
structure AudioDeviceList where
  inputs : List AudioDeviceInfo
  outputs : List AudioDeviceInfo
deriving DecidableEq, Repr

/-- `voice_list_devices` (voice/mod.rs lines 326-343): maps every
enumerated input and output device name to
an `AudioDeviceInfo` with `is_default: false`.  The host enumerations
(`list_input_devices` / `list_output_devices`, thin cpal shells) are
inputs. -/
def voice_list_devices (input_names output_names : List String) :
    AudioDeviceList :=
  { inputs := input_names.map (fun n => { is_default := false, name := n }),
    outputs := output_names.map (fun n => { is_default := false, name := n }) }

/-! ## Theorems -/

/-- C1 counterexample: the claim says the RTP sequence number advances by
exactly 1 per processed frame whether or not the frame was muted.  At the
concrete steady state (sequence 0, timestamp 0) with a muted frame and a
successful encode path, the sequence stays 0, not (0 + 1) mod 2^16 = 1. -/
theorem muted_frame_keeps_sequence :
    (encodeFrameStep true true ⟨0, 0⟩).1.sequence = 0 ∧
    (0 + 1) % 2 ^ 16 = 1 ∧
    ¬ (∀ (muted : Bool) (st : RtpState),
        (encodeFrameStep muted true st).1.sequence = (st.sequence + 1) % 2 ^ 16) := by
  refine ⟨rfl, by norm_num, fun hclaim => ?_⟩
  have h := hclaim true ⟨0, 0⟩
  simp [encodeFrameStep] at h

/-- C1 (amended): at steady state with a successful encode, the RTP
timestamp advances by exactly 960 (mod 2^32) per processed frame whether
or not the frame was muted; the sequence advances by exactly 1 (mod 2^16)
on unmuted frames and is unchanged on muted frames; while muted no RTP
packet is written to the track, and an unmuted frame writes exactly one
packet carrying the pre-increment sequence and timestamp with payload
type 111. -/
theorem encode_task_rtp_advance (st : RtpState) :
    (encodeFrameStep true true st).1.timestamp
        = (st.timestamp + 960) % 2 ^ 32 ∧
    (encodeFrameStep false true st).1.timestamp
        = (st.timestamp + 960) % 2 ^ 32 ∧
    (encodeFrameStep true true st).1.sequence = st.sequence ∧
    (encodeFrameStep false true st).1.sequence = (st.sequence + 1) % 2 ^ 16 ∧
    (encodeFrameStep true true st).2 = none ∧
    (encodeFrameStep false true st).2 =
      some { payload_type := 111, sequence_number := st.sequence,
             timestamp := st.timestamp, ssrc := 0 } := by
  refine ⟨?_, ?_, ?_, ?_, ?_, ?_⟩ <;>
    simp [encodeFrameStep, OPUS_FRAME_SAMPLES]

/-- C2 (code bug evaluation): `ScreenPeer::new` adds exactly one send-only
local track, the H.264 sample video track; no raw-RTP Opus audio track is
created or added, although `screen/mod.rs` line 90 reads
`peer.audio_track` and `ScreenCapture::start` expects it. -/
theorem screen_peer_adds_single_video_track :
    screenPeerLocalTracks.length = 1 ∧
    (∀ t ∈ screenPeerLocalTracks,
        t.kind = TrackKind.sample ∧ t.mime_type = "video/H264") ∧
    (∀ t ∈ screenPeerLocalTracks, t.mime_type ≠ "audio/opus") ∧
    (∀ t ∈ screenPeerLocalTracks, t.kind ≠ TrackKind.rawRtp) := by
  refine ⟨rfl, ?_, ?_, ?_⟩ <;> simp [screenPeerLocalTracks]

/-- C3 counterexample: the claim says that if any setup step of
`screen_start` fails, no partial state persists (no MJPEG server stored).
Starting from the Idle engine with the portal and the MJPEG bind
succeeding (port 5) and peer creation failing, the command returns the
error but the engine keeps the MJPEG server stored. -/
theorem screen_start_peer_failure_keeps_mjpeg :
    (screen_start idleEngine (.ok ()) (.ok 5) (.error "peer failed")).2
        = .error "peer failed" ∧
    (screen_start idleEngine (.ok ()) (.ok 5) (.error "peer failed")).1.mjpeg_server
        = some 5 ∧
    some 5 ≠ (none : Option Nat) := by
  refine ⟨rfl, rfl, by simp⟩

/-- C3 (amended): any setup failure of `screen_start` returns the error as
the command result and leaves no peer stored, no capture running and no
event task; on portal failure or MJPEG bind failure the engine is exactly
Idle, but on peer-creation failure the already-started MJPEG server
remains stored (with its port). -/
theorem screen_start_failure_state (st : ScreenEngineState) (e : String)
    (m : Except String Nat) (p : Except String Unit) (port : Nat) :
    screen_start st (.error e) m p = (idleEngine, .error e) ∧
    screen_start st (.ok ()) (.error e) p = (idleEngine, .error e) ∧
    screen_start st (.ok ()) (.ok port) (.error e) =
      ({ idleEngine with mjpeg_server := some port }, .error e) :=
  ⟨rfl, rfl, rfl⟩

/-- C8 counterexample: the claim says the software encoder variant builds a
configuration identical to the capture loop's for equal bitrate; at the
capture loop's own bitrate (5000 kbit/s) the two configurations differ:
the software variant sets max frame rate 60 fps, the capture loop 30 fps. -/
theorem software_config_differs_from_capture :
    softwareEncoderConfig 5000 ≠ runCaptureEncoderConfig ∧
    (softwareEncoderConfig 5000).max_frame_rate = 60 ∧
    runCaptureEncoderConfig.max_frame_rate = 30 := by
  refine ⟨?_, rfl, rfl⟩
  intro h
  have := congrArg EncoderConfig.max_frame_rate h
  simp [softwareEncoderConfig, runCaptureEncoderConfig] at this

/-- C8 (amended): for equal bitrate the software-variant configuration
agrees with the capture-loop configuration on bitrate (bits per second),
usage type (screen-content real-time), skip-frame (disabled) and rate
control mode (bitrate), and differs only in the max frame rate: 60 fps in
the software variant against 30 fps in the capture loop. -/
theorem software_config_matches_capture_except_fps :
    (softwareEncoderConfig BITRATE_KBPS).bitrate_bps
        = runCaptureEncoderConfig.bitrate_bps ∧
    (softwareEncoderConfig BITRATE_KBPS).usage_type
        = runCaptureEncoderConfig.usage_type ∧
    (softwareEncoderConfig BITRATE_KBPS).enable_skip_frame
        = runCaptureEncoderConfig.enable_skip_frame ∧
    (softwareEncoderConfig BITRATE_KBPS).rate_control_mode
        = runCaptureEncoderConfig.rate_control_mode ∧
    (softwareEncoderConfig BITRATE_KBPS).max_frame_rate = 60 ∧
    runCaptureEncoderConfig.max_frame_rate = 30 :=
  ⟨rfl, rfl, rfl, rfl, rfl, rfl⟩

/-- C9: `voice_list_devices` returns every enumerated input and output
device, in order and with its name preserved, and marks none of them as
the default: every entry has `is_default = false`. -/
theorem voice_list_devices_never_default (ins outs : List String) :
    (voice_list_devices ins outs).inputs.map AudioDeviceInfo.name = ins ∧
    (voice_list_devices ins outs).outputs.map AudioDeviceInfo.name = outs ∧
    (∀ d ∈ (voice_list_devices ins outs).inputs, d.is_default = false) ∧
    (∀ d ∈ (voice_list_devices ins outs).outputs, d.is_default = false) := by
  have h : ∀ l : List String,
      (l.map (fun n => ({ name := n, is_default := false } : AudioDeviceInfo))).map
        AudioDeviceInfo.name = l := by
    intro l
    rw [List.map_map]
    exact List.map_id l
  refine ⟨h ins, h outs, ?_, ?_⟩ <;> simp [voice_list_devices]

/-! ## Speaking detector (voice/speaking.rs) -/

/-- SPEAK_THRESHOLD from voice/speaking.rs (the f32 literal 0.015,
modelled as the exact rational it denotes in decimal). -/
def SPEAK_THRESHOLD : ℚ := 0.015

/-- EMA_ATTACK from voice/speaking.rs (0.4). -/
def EMA_ATTACK : ℚ := 0.4

/-- EMA_RELEASE from voice/speaking.rs (0.05). -/
def EMA_RELEASE : ℚ := 0.05

/-- HOLD_MS from voice/speaking.rs (250.0). -/
def HOLD_MS : ℚ := 250

/-- The state of SpeakingDetector (voice/speaking.rs lines 9-14):
smoothed RMS, the last reported speaking flag, the hold deadline and the
accumulated frame clock, all in milliseconds where applicable. -/
structure SpeakingDetector where
  smoothed_rms : ℚ
  was_speaking : Bool
  hold_until : ℚ
  clock_ms : ℚ
deriving DecidableEq, Repr

/-- The EMA smoothing step of SpeakingDetector::process
(voice/speaking.rs lines 41-46): alpha is EMA_ATTACK when the frame RMS
is above the current smoothed value, EMA_RELEASE otherwise, and the new
smoothed RMS is alpha * rms + (1 - alpha) * smoothed. -/
def newSmoothed (st : SpeakingDetector) (rms : ℚ) : ℚ :=
  let alpha := if rms > st.smoothed_rms then EMA_ATTACK else EMA_RELEASE
  alpha * rms + (1 - alpha) * st.smoothed_rms

/-- Steps 1 and 3-5 of SpeakingDetector::process with the frame's RMS
value already computed (step 2 computes rms from the samples; see
SpeakingDetector.process below): advance the clock, EMA-smooth the RMS
(see newSmoothed), decide speaking (above threshold sets the hold
deadline; otherwise speak while the clock is before the deadline), and
return Some only on a transition. -/
def SpeakingDetector.processRms (st : SpeakingDetector)
    (rms frame_duration_ms : ℚ) : Option Bool × SpeakingDetector :=
  let clock := st.clock_ms + frame_duration_ms
  let smoothed := newSmoothed st rms
  let hold := if smoothed > SPEAK_THRESHOLD then clock + HOLD_MS else st.hold_until
  let is_speaking :=
    if smoothed > SPEAK_THRESHOLD then true
    else if clock < st.hold_until then true
    else false
  if is_speaking ≠ st.was_speaking then
    (some is_speaking,
     { smoothed_rms := smoothed, was_speaking := is_speaking,
       hold_until := hold, clock_ms := clock })
  else
    (none,
     { smoothed_rms := smoothed, was_speaking := st.was_speaking,
       hold_until := hold, clock_ms := clock })

/-- SpeakingDetector::process (voice/speaking.rs lines 29-63).  An empty
sample slice returns None before any state is touched.  The f32 square
root is kept abstract as the parameter rtsq; the RMS fed to the EMA stage
is rtsq of the mean square. -/
def SpeakingDetector.process (rtsq : ℚ → ℚ) (st : SpeakingDetector)
    (samples : List ℚ) (frame_duration_ms : ℚ) :
    Option Bool × SpeakingDetector :=
  if samples.isEmpty then (none, st)
  else
    let sum_sq := (samples.map (fun s => s * s)).sum
    let rms := rtsq (sum_sq / (samples.length : ℚ))
    st.processRms rms frame_duration_ms

/-- Run processRms over a list of (rms, frame duration) frames, collecting
the per-frame transition events and the final state. -/
def runDetector (st : SpeakingDetector) :
    List (ℚ × ℚ) → List (Option Bool) × SpeakingDetector
  | [] => ([], st)
  | (r, d) :: rest =>
    let step := st.processRms r d
    let next := runDetector step.2 rest
    (step.1 :: next.1, next.2)

/-- True when every frame of the run keeps the updated smoothed RMS at or
below the speaking threshold (the claim's "smoothed RMS stays below"). -/
def smoothedStaysBelow (st : SpeakingDetector) : List (ℚ × ℚ) → Bool
  | [] => true
  | (r, d) :: rest =>
    decide (newSmoothed st r ≤ SPEAK_THRESHOLD) &&
      smoothedStaysBelow (st.processRms r d).2 rest

/-- Total duration of a list of (rms, duration) frames. -/
def dursum (fs : List (ℚ × ℚ)) : ℚ := (fs.map Prod.snd).sum

/-- C10: for every square-root interpretation, every detector state and
every frame duration, processing an empty sample slice returns None and
leaves the detector state unchanged: the clock does not advance and
smoothed RMS, hold deadline and the speaking flag are untouched. -/
theorem process_empty_frame_no_effect (rtsq : ℚ → ℚ)
    (st : SpeakingDetector) (d : ℚ) :
    SpeakingDetector.process rtsq st [] d = (none, st) := rfl

/-- Total frame time is nonnegative when every frame duration is. -/
theorem dursum_nonneg (fs : List (ℚ × ℚ)) (h : ∀ p ∈ fs, 0 ≤ p.2) :
    0 ≤ dursum fs := by
  refine List.sum_nonneg ?_
  intro x hx
  obtain ⟨p, hp, rfl⟩ := List.mem_map.mp hx
  exact h p hp

/-- dursum distributes over cons. -/
theorem dursum_cons (r d : ℚ) (fs : List (ℚ × ℚ)) :
    dursum ((r, d) :: fs) = d + dursum fs := by
  simp [dursum]

/-- One below-threshold frame: when the updated smoothed RMS is at or
below the threshold, the hold deadline is untouched, the clock advances
by the frame duration, the reported flag becomes "clock before deadline",
and an event fires exactly on a change of that flag. -/
theorem processRms_below (st : SpeakingDetector) (r d : ℚ)
    (h : newSmoothed st r ≤ SPEAK_THRESHOLD) :
    st.processRms r d =
      (if decide (st.clock_ms + d < st.hold_until) ≠ st.was_speaking
         then some (decide (st.clock_ms + d < st.hold_until)) else none,
       { smoothed_rms := newSmoothed st r,
         was_speaking := decide (st.clock_ms + d < st.hold_until),
         hold_until := st.hold_until,
         clock_ms := st.clock_ms + d }) := by
  have hns : ¬ (newSmoothed st r > SPEAK_THRESHOLD) := not_lt.mpr h
  cases hw : st.was_speaking <;>
    by_cases hc : st.clock_ms + d < st.hold_until <;>
      simp [SpeakingDetector.processRms, hns, hc, hw]

/-- A run of below-threshold frames with nonnegative durations, starting
from a state whose flag agrees with "clock before deadline": the hold
deadline never moves, the clock accumulates the durations, the reported
flag tracks "clock before deadline" after every prefix, each frame's
event output follows the transition of that flag, and the whole run
contains at most one event, the single some-false at the first frame
whose end clock reaches the deadline. -/
theorem runDetector_below_spec (fs : List (ℚ × ℚ)) (st : SpeakingDetector)
    (hI : st.was_speaking = decide (st.clock_ms < st.hold_until))
    (hbelow : smoothedStaysBelow st fs = true)
    (hdur : ∀ p ∈ fs, 0 ≤ p.2) :
    (runDetector st fs).2.hold_until = st.hold_until ∧
    (runDetector st fs).2.clock_ms = st.clock_ms + dursum fs ∧
    (runDetector st fs).2.was_speaking
        = decide (st.clock_ms + dursum fs < st.hold_until) ∧
    (∀ i < fs.length,
      (runDetector st fs).1.getD i none =
        (if st.clock_ms + dursum (fs.take (i+1)) < st.hold_until then none
         else if st.clock_ms + dursum (fs.take i) < st.hold_until then some false
         else none)) ∧
    (∀ i < fs.length,
      (runDetector st (fs.take (i+1))).2.was_speaking
        = decide (st.clock_ms + dursum (fs.take (i+1)) < st.hold_until)) ∧
    ((runDetector st fs).1.count (some false)
        = if st.clock_ms < st.hold_until ∧
             ¬ st.clock_ms + dursum fs < st.hold_until then 1 else 0) ∧
    (runDetector st fs).1.count (some true) = 0 := by
  induction fs generalizing st with
  | nil =>
    refine ⟨rfl, by simp [runDetector, dursum], ?_, ?_, ?_, ?_, ?_⟩
    · simpa [runDetector, dursum] using hI
    · intro i hi; simp at hi
    · intro i hi; simp at hi
    · simp only [runDetector, dursum, List.map_nil, List.sum_nil, add_zero,
        List.count_nil]
      rw [eq_comm, if_neg]
      rintro ⟨h1, h2⟩
      exact h2 h1
    · simp [runDetector]
  | cons p rest ih =>
    obtain ⟨r, d⟩ := p
    simp only [smoothedStaysBelow, Bool.and_eq_true, decide_eq_true_eq] at hbelow
    have hd : 0 ≤ d := hdur (r, d) (List.mem_cons_self _ _)
    have hdur' : ∀ q ∈ rest, 0 ≤ q.2 := fun q hq => hdur q (List.mem_cons_of_mem _ hq)
    have hS : 0 ≤ dursum rest := dursum_nonneg rest hdur'
    have hstep := processRms_below st r d hbelow.1
    set st' : SpeakingDetector :=
      { smoothed_rms := newSmoothed st r,
        was_speaking := decide (st.clock_ms + d < st.hold_until),
        hold_until := st.hold_until,
        clock_ms := st.clock_ms + d } with hst'
    have h2 : (st.processRms r d).2 = st' := by rw [hstep]
    have hout : (st.processRms r d).1 =
        (if decide (st.clock_ms + d < st.hold_until) ≠ st.was_speaking
           then some (decide (st.clock_ms + d < st.hold_until)) else none) := by
      rw [hstep]
    have hbelow' : smoothedStaysBelow st' rest = true := by
      rw [← h2]; exact hbelow.2
    have hI' : st'.was_speaking = decide (st'.clock_ms < st'.hold_until) := rfl
    obtain ⟨ihold, iclock, iwas, iout, ipfx, icf, ict⟩ :=
      ih st' hI' hbelow' hdur'
    have hrun : runDetector st ((r, d) :: rest) =
        ((st.processRms r d).1 :: (runDetector st' rest).1,
         (runDetector st' rest).2) := by
      simp [runDetector, h2]
    refine ⟨?_, ?_, ?_, ?_, ?_, ?_, ?_⟩
    · rw [hrun]; simpa using ihold
    · rw [hrun, dursum_cons]
      simpa [add_assoc] using iclock
    · rw [hrun, dursum_cons]
      simpa [add_assoc] using iwas
    · intro i hi
      rw [hrun]
      cases i with
      | zero =>
        simp only [List.getD_cons_zero, List.take_succ_cons, List.take_zero,
          dursum_cons, dursum]
        rw [hout, hI]
        by_cases hc : st.clock_ms + d < st.hold_until
        · have hcl : st.clock_ms < st.hold_until := by linarith
          simp [hc, hcl]
        · by_cases hcl : st.clock_ms < st.hold_until
          · simp [hc, hcl]
          · simp [hc, hcl]
      | succ j =>
        have hj : j < rest.length := by
          simpa using Nat.lt_of_succ_lt_succ hi
        simp only [List.getD_cons_succ, List.take_succ_cons, dursum_cons]
        have := iout j hj
        calc (runDetector st' rest).1.getD j none
            = (if st'.clock_ms + dursum (rest.take (j+1)) < st'.hold_until
                 then none
               else if st'.clock_ms + dursum (rest.take j) < st'.hold_until
                 then some false else none) := this
          _ = _ := by simp [hst', add_assoc]
    · intro i hi
      cases i with
      | zero =>
        have h0 : runDetector st (((r, d) :: rest).take 1) =
            ((st.processRms r d).1 :: ([], st').1, st') := by
          simp [runDetector, h2]
        rw [h0]
        simp [hst', dursum_cons, dursum]
      | succ j =>
        have hj : j < rest.length := by
          simpa using Nat.lt_of_succ_lt_succ hi
        have htake : ((r, d) :: rest).take (j + 2) = (r, d) :: rest.take (j + 1) := rfl
        rw [htake]
        have hrun2 : runDetector st ((r, d) :: rest.take (j + 1)) =
            ((st.processRms r d).1 :: (runDetector st' (rest.take (j+1))).1,
             (runDetector st' (rest.take (j+1))).2) := by
          simp [runDetector, h2]
        rw [hrun2]
        have := ipfx j hj
        rw [this]
        simp [hst', dursum_cons, add_assoc]
    · rw [hrun, List.count_cons, dursum_cons]
      rw [hout, hI]
      by_cases hc : st.clock_ms + d < st.hold_until
      · have hcl : st.clock_ms < st.hold_until := by linarith
        have hcond : ((st.clock_ms < st.hold_until ∧
            ¬ st.clock_ms + (d + dursum rest) < st.hold_until)) ↔
            (st'.clock_ms < st'.hold_until ∧
             ¬ st'.clock_ms + dursum rest < st'.hold_until) := by
          simp only [hst']
          constructor
          · rintro ⟨_, hn⟩
            exact ⟨hc, by intro hx; exact hn (by linarith)⟩
          · rintro ⟨_, hn⟩
            exact ⟨hcl, by intro hx; exact hn (by linarith)⟩
        rw [icf]
        simp only [hc, hcl, decide_True, ne_eq, not_true_eq_false, if_false]
        by_cases hend : st.clock_ms + (d + dursum rest) < st.hold_until
        · have : st'.clock_ms + dursum rest < st'.hold_until := by
            simp only [hst']; linarith
          simp [hend, this]
        · have : ¬ st'.clock_ms + dursum rest < st'.hold_until := by
            simp only [hst']; intro hx; exact hend (by linarith)
          simp [hend, hcl, this, hc]
      · have hnend : ¬ st.clock_ms + (d + dursum rest) < st.hold_until := by
          intro hx; exact hc (by linarith)
        have hcf0 : (runDetector st' rest).1.count (some false) = 0 := by
          rw [icf]
          have : ¬ st'.clock_ms < st'.hold_until := by simpa [hst'] using hc
          simp [this]
        rw [hcf0]
        by_cases hcl : st.clock_ms < st.hold_until
        · simp [hc, hcl, hnend]
        · simp [hc, hcl, hnend]
    · rw [hrun, List.count_cons]
      rw [hout, hI]
      by_cases hc : st.clock_ms + d < st.hold_until
      · have hcl : st.clock_ms < st.hold_until := by linarith
        simp [ict, hc, hcl]
      · by_cases hcl : st.clock_ms < st.hold_until
        · simp [ict, hc, hcl]
        · simp [ict, hc, hcl]

/-- C4: with SPEAK_THRESHOLD 0.015 and HOLD_MS 250, start from the state
left by the last above-threshold frame (reported speaking, hold deadline
equal to clock + 250 ms) and feed any frames of nonnegative duration
whose smoothed RMS stays at or below the threshold.  Every frame whose
accumulated frame time is still strictly below 250 ms reports speaking
and emits no event; every frame at which the accumulated time has
reached 250 ms reports not-speaking, with a some-false event exactly at
the first such frame; over the whole run, exactly one some-false event is
emitted when the 250 ms elapse within the run and none otherwise, and no
some-true event is ever emitted. -/
theorem speaking_detector_hold_exactly_250 (st0 : SpeakingDetector)
    (fs : List (ℚ × ℚ))
    (hspk : st0.was_speaking = true)
    (hhold : st0.hold_until = st0.clock_ms + HOLD_MS)
    (hdur : ∀ p ∈ fs, 0 ≤ p.2)
    (hbelow : smoothedStaysBelow st0 fs = true) :
    (∀ i < fs.length,
      (dursum (fs.take (i+1)) < HOLD_MS →
        (runDetector st0 fs).1.getD i none = none ∧
        (runDetector st0 (fs.take (i+1))).2.was_speaking = true) ∧
      (HOLD_MS ≤ dursum (fs.take (i+1)) →
        (runDetector st0 (fs.take (i+1))).2.was_speaking = false ∧
        (runDetector st0 fs).1.getD i none =
          (if dursum (fs.take i) < HOLD_MS then some false else none))) ∧
    ((runDetector st0 fs).1.count (some false)
        = if dursum fs < HOLD_MS then 0 else 1) ∧
    (runDetector st0 fs).1.count (some true) = 0 := by
  have hI : st0.was_speaking = decide (st0.clock_ms < st0.hold_until) := by
    rw [hspk, hhold]
    have h : st0.clock_ms < st0.clock_ms + HOLD_MS := by norm_num [HOLD_MS]
    simp [h]
  obtain ⟨_, _, _, iout, ipfx, icf, ict⟩ :=
    runDetector_below_spec fs st0 hI hbelow hdur
  refine ⟨?_, ?_, ict⟩
  · intro i hi
    constructor
    · intro hlt
      have hc1 : st0.clock_ms + dursum (fs.take (i+1)) < st0.hold_until := by
        rw [hhold]; linarith
      refine ⟨?_, ?_⟩
      · rw [iout i hi, if_pos hc1]
      · rw [ipfx i hi]; simp [hc1]
    · intro hge
      have hc1 : ¬ st0.clock_ms + dursum (fs.take (i+1)) < st0.hold_until := by
        rw [hhold]; intro hx; linarith
      refine ⟨?_, ?_⟩
      · rw [ipfx i hi]; simp [hc1]
      · rw [iout i hi, if_neg hc1]
        by_cases h2 : dursum (fs.take i) < HOLD_MS
        · have h3 : st0.clock_ms + dursum (fs.take i) < st0.hold_until := by
            rw [hhold]; linarith
          simp [h3, h2]
        · have h3 : ¬ st0.clock_ms + dursum (fs.take i) < st0.hold_until := by
            rw [hhold]; intro hx; linarith
          simp [h3, h2]
  · rw [icf]
    by_cases hend : dursum fs < HOLD_MS
    · have h1 : st0.clock_ms + dursum fs < st0.hold_until := by
        rw [hhold]; linarith
      simp [hend, h1]
    · have h1 : ¬ st0.clock_ms + dursum fs < st0.hold_until := by
        rw [hhold]; intro hx; linarith
      have h0 : st0.clock_ms < st0.hold_until := by
        rw [hhold]; norm_num [HOLD_MS]
      simp [hend, h1, h0]

/-- C4 witness: a concrete speaking state (smoothed 0.01, clock 100 ms,
deadline 350 ms) and two silent frames of 200 ms and 100 ms; the run
crosses the 250 ms hold, so exactly one some-false event is emitted. -/
theorem speaking_detector_hold_witness :
    (runDetector { smoothed_rms := 1/100, was_speaking := true,
                   hold_until := 350, clock_ms := 100 }
        [((0:ℚ), (200:ℚ)), (0, 100)]).1.count (some false)
      = if dursum [((0:ℚ), (200:ℚ)), (0, 100)] < HOLD_MS then 0 else 1 :=
  (speaking_detector_hold_exactly_250
      { smoothed_rms := 1/100, was_speaking := true,
        hold_until := 350, clock_ms := 100 }
      [(0, 200), (0, 100)] rfl (by norm_num [HOLD_MS])
      (by norm_num [List.forall_mem_cons])
      (by norm_num [smoothedStaysBelow, SpeakingDetector.processRms,
        newSmoothed, SPEAK_THRESHOLD, EMA_ATTACK, EMA_RELEASE, HOLD_MS])).2.1

/-! ## Resampler (voice/resampler.rs) -/

/-- AudioResampler (voice/resampler.rs lines 4-28): wraps rubato's
FftFixedIn, keeping the constructor arguments of new(from_rate, to_rate,
chunk_size, channels); chunk_size is stored as input_frames. -/
structure AudioResampler where
  from_rate : Nat
  to_rate : Nat
  input_frames : Nat
  channels : Nat
deriving DecidableEq, Repr

/-- Modelled from the spec: the per-call output size of the underlying
engine (rubato's FftFixedIn, an external crate whose source is not part
of this repository).  The spec states the output length per call is
deterministic, ceil(input_frames * to_rate / from_rate) frames per
channel; this is that ceiling as a natural-number formula. -/
def resamplerOutputFrames (r : AudioResampler) : Nat :=
  (r.input_frames * r.to_rate + r.from_rate - 1) / r.from_rate

/-- Modelled from the spec: rubato FftFixedIn::process (external crate).
The engine receives the per-channel input vectors and returns
resamplerOutputFrames samples per channel; the sample values produced by
the FFT are not specified by the claim and are modelled as zeros. -/
def fftFixedInProcess (r : AudioResampler) (chans : List (List ℚ)) :
    List (List ℚ) :=
  chans.map (fun _ => List.replicate (resamplerOutputFrames r) 0)

/-- Vec::resize(n, 0.0) as used on each de-interleaved channel
(voice/resampler.rs line 43): truncate or zero-pad to exactly n
elements. -/
def listResize (l : List ℚ) (n : Nat) : List ℚ :=
  l.take n ++ List.replicate (n - l.length) 0

/-- The de-interleaving loop of AudioResampler::process
(voice/resampler.rs lines 36-39): starting from channels empty vectors,
push sample i onto channel i % channels. -/
def deinterleave (ch : Nat) (interleaved : List ℚ) : List (List ℚ) :=
  interleaved.enum.foldl
    (fun acc p => acc.set (p.1 % ch) (acc.getD (p.1 % ch) [] ++ [p.2]))
    (List.replicate ch [])

/-- AudioResampler::process (voice/resampler.rs lines 32-57):
de-interleave into per-channel vectors, pad each channel to input_frames,
run the engine, then re-interleave; out_frames reads the length of
output[0] (modelled with getD; the source would panic on zero channels,
which new() rules out). -/
def AudioResampler.process (r : AudioResampler) (interleaved : List ℚ) :
    List ℚ :=
  let channels := deinterleave r.channels interleaved
  let padded := channels.map (fun c => listResize c r.input_frames)
  let output := fftFixedInProcess r padded
  let out_frames := (output.getD 0 []).length
  (List.range out_frames).flatMap (fun i => output.map (fun c => c.getD i 0))

/-- The de-interleaving loop returns exactly one vector per channel. -/
theorem deinterleave_length (ch : Nat) (xs : List ℚ) :
    (deinterleave ch xs).length = ch := by
  have h : ∀ (l : List (Nat × ℚ)) (acc : List (List ℚ)),
      (l.foldl
        (fun acc p => acc.set (p.1 % ch) (acc.getD (p.1 % ch) [] ++ [p.2]))
        acc).length = acc.length := by
    intro l
    induction l with
    | nil => intro acc; rfl
    | cons p t iht =>
      intro acc
      rw [List.foldl_cons, iht, List.length_set]
  unfold deinterleave
  rw [h, List.length_replicate]

/-- Length of a flatMap whose pieces all have the same length. -/
theorem length_flatMap_const {α β : Type} (l : List α) (f : α → List β)
    (k : Nat) (h : ∀ a ∈ l, (f a).length = k) :
    (l.flatMap f).length = l.length * k := by
  induction l with
  | nil => simp
  | cons a t ih =>
    rw [List.flatMap_cons, List.length_append, h a (List.mem_cons_self _ _),
      ih (fun b hb => h b (List.mem_cons_of_mem _ hb)), List.length_cons]
    ring

/-- C6: for every resampler constructed with (from_rate, to_rate,
input_frames, channels) whose rates and channel count are positive
(rubato's constructor rejects zeros), and every interleaved input of
length at most input_frames * channels, the output of process has length
ceil(input_frames * to_rate / from_rate) * channels, the ceiling as the
natural-number formula (a + b - 1) / b. -/
theorem resampler_process_length (r : AudioResampler) (x : List ℚ)
    (hch : 0 < r.channels) (hfrom : 0 < r.from_rate)
    (hlen : x.length ≤ r.input_frames * r.channels) :
    (r.process x).length = resamplerOutputFrames r * r.channels ∧
    resamplerOutputFrames r
      = (r.input_frames * r.to_rate + r.from_rate - 1) / r.from_rate := by
  refine ⟨?_, rfl⟩
  simp only [AudioResampler.process, fftFixedInProcess]
  set padded := (deinterleave r.channels x).map
      (fun c => listResize c r.input_frames) with hpadded
  set out : List (List ℚ) :=
    padded.map (fun _ => List.replicate (resamplerOutputFrames r) (0 : ℚ))
    with hout
  have holen : out.length = r.channels := by
    rw [hout, hpadded, List.length_map, List.length_map, deinterleave_length]
  have hne : out ≠ [] := by
    intro hnil
    rw [hnil] at holen
    simp at holen
    omega
  obtain ⟨c0, tl, hcons⟩ := List.exists_cons_of_ne_nil hne
  have hc0 : c0 = List.replicate (resamplerOutputFrames r) 0 := by
    have : c0 ∈ out := by rw [hcons]; exact List.mem_cons_self _ _
    rw [hout] at this
    obtain ⟨a, _, ha⟩ := List.mem_map.mp this
    exact ha.symm
  have hfl : (out.getD 0 []).length = resamplerOutputFrames r := by
    rw [hcons, List.getD_cons_zero, hc0, List.length_replicate]
  rw [length_flatMap_const _ _ out.length
    (fun i _ => List.length_map _ _), List.length_range, hfl, holen]

/-- C6 witness: a concrete resampler (2 to 3, 4 input frames, 2 channels)
on a 4-sample interleaved input: the output length is
ceil(4 * 3 / 2) * 2 = 12 samples. -/
theorem resampler_process_length_witness :
    (AudioResampler.process ⟨2, 3, 4, 2⟩ [1, 2, 3, 4]).length
        = resamplerOutputFrames ⟨2, 3, 4, 2⟩ * 2 ∧
    resamplerOutputFrames ⟨2, 3, 4, 2⟩ = (4 * 3 + 2 - 1) / 2 :=
  resampler_process_length ⟨2, 3, 4, 2⟩ [1, 2, 3, 4]
    (by norm_num) (by norm_num) (by norm_num)

/-! ## Alpha-crop detection (screen/capture.rs) -/

/-- Result of alpha-based crop detection (screen/capture.rs lines 982-990). -/
inductive CropResult
  | FullFrame
  | Cropped (x y w h : Nat)
  | Empty
deriving DecidableEq, Repr

/-- The alpha_at closure of detect_alpha_crop (screen/capture.rs lines
1000-1003): the alpha byte of pixel (x, y) at the given stride, 0 when
the offset is out of bounds.  The BGRA byte buffer is modelled by its
length dlen and its byte function data. -/
def alphaAt (dlen : Nat) (data : Nat → Nat) (stride x y : Nat) : Nat :=
  let off := y * stride + x * 4 + 3
  if off < dlen then data off else 0

/-- The four mutable scan variables of detect_alpha_crop. -/
structure BBox where
  top : Nat
  bottom : Nat
  left : Nat
  right : Nat
deriving DecidableEq, Repr

/-- The inner-loop body of the bounding-box scan (screen/capture.rs lines
1019-1028) for one pixel: when its alpha is positive, lower top to y,
set bottom to y, lower left to x and raise right to x. -/
def scanPixel (dlen : Nat) (data : Nat → Nat) (stride y : Nat)
    (bb : BBox) (x : Nat) : BBox :=
  if 0 < alphaAt dlen data stride x y then
    { top := if y < bb.top then y else bb.top,
      bottom := y,
      left := if x < bb.left then x else bb.left,
      right := if bb.right < x then x else bb.right }
  else bb

/-- One row of the scan: fold scanPixel over x in 0..w. -/
def scanRow (dlen : Nat) (data : Nat → Nat) (stride w y : Nat)
    (bb : BBox) : BBox :=
  (List.range w).foldl (scanPixel dlen data stride y) bb

/-- The whole scan: fold the rows over y in 0..h starting from
(top, bottom, left, right) = (h, 0, w, 0). -/
def scanAll (dlen : Nat) (data : Nat → Nat) (w h stride : Nat) : BBox :=
  (List.range h).foldl (fun bb y => scanRow dlen data stride w y bb)
    { top := h, bottom := 0, left := w, right := 0 }

/-- detect_alpha_crop (screen/capture.rs lines 993-1043): empty
dimensions give Empty; four opaque corners give FullFrame; otherwise scan
the bounding box of pixels with positive alpha, give Empty when none was
found (top still above bottom), FullFrame when the box covers the whole
frame, and Cropped(left, top, w, h) otherwise. -/
def detect_alpha_crop (dlen : Nat) (data : Nat → Nat) (w h stride : Nat) :
    CropResult :=
  if w = 0 ∨ h = 0 then CropResult.Empty
  else if alphaAt dlen data stride 0 0 = 255 ∧
          alphaAt dlen data stride (w - 1) 0 = 255 ∧
          alphaAt dlen data stride 0 (h - 1) = 255 ∧
          alphaAt dlen data stride (w - 1) (h - 1) = 255 then
    CropResult.FullFrame
  else
    let bb := scanAll dlen data w h stride
    if bb.bottom < bb.top ∨ bb.right < bb.left then CropResult.Empty
    else
      let cw := bb.right - bb.left + 1
      let ch := bb.bottom - bb.top + 1
      if w ≤ cw ∧ h ≤ ch then CropResult.FullFrame
      else CropResult.Cropped bb.left bb.top cw ch

/-- A row scan over pixels whose alpha is all zero leaves the scan state
unchanged. -/
theorem scanRow_zero (dlen : Nat) (data : Nat → Nat) (stride w y : Nat)
    (bb : BBox) (h0 : ∀ x < w, alphaAt dlen data stride x y = 0) :
    scanRow dlen data stride w y bb = bb := by
  unfold scanRow
  have hgen : ∀ (l : List Nat), (∀ x ∈ l, alphaAt dlen data stride x y = 0) →
      ∀ b, l.foldl (scanPixel dlen data stride y) b = b := by
    intro l
    induction l with
    | nil => intro _ b; rfl
    | cons a t ih =>
      intro hl b
      rw [List.foldl_cons]
      have ha : alphaAt dlen data stride a y = 0 := hl a (List.mem_cons_self _ _)
      have hs : scanPixel dlen data stride y b a = b := by
        unfold scanPixel
        rw [ha]
        simp
      rw [hs]
      exact ih (fun x hx => hl x (List.mem_cons_of_mem _ hx)) b
  exact hgen _ (fun x hx => h0 x (List.mem_range.mp hx)) bb

/-- The whole scan over an all-transparent frame keeps the initial
sentinel state. -/
theorem scanAll_zero (dlen : Nat) (data : Nat → Nat) (w h stride : Nat)
    (h0 : ∀ x y, x < w → y < h → alphaAt dlen data stride x y = 0) :
    scanAll dlen data w h stride
      = { top := h, bottom := 0, left := w, right := 0 } := by
  unfold scanAll
  have hgen : ∀ (l : List Nat), (∀ y ∈ l, y < h) →
      ∀ b, l.foldl (fun bb y => scanRow dlen data stride w y bb) b = b := by
    intro l
    induction l with
    | nil => intro _ b; rfl
    | cons a t ih =>
      intro hl b
      rw [List.foldl_cons,
        scanRow_zero dlen data stride w a b
          (fun x hx => h0 x a hx (hl a (List.mem_cons_self _ _)))]
      exact ih (fun y hy => hl y (List.mem_cons_of_mem _ hy)) b
  exact hgen _ (fun y hy => List.mem_range.mp hy) _

/-- Scanning any pixels whose alpha is zero never changes the scan state. -/
theorem scanPixels_zero (dlen : Nat) (data : Nat → Nat) (stride y : Nat)
    (l : List Nat) (hl : ∀ x ∈ l, alphaAt dlen data stride x y = 0) :
    ∀ bb, l.foldl (scanPixel dlen data stride y) bb = bb := by
  induction l with
  | nil => intro bb; rfl
  | cons a t ih =>
    intro bb
    rw [List.foldl_cons]
    have hs : scanPixel dlen data stride y bb a = bb := by
      unfold scanPixel
      rw [hl a (List.mem_cons_self _ _)]
      simp
    rw [hs]
    exact ih (fun x hx => hl x (List.mem_cons_of_mem _ hx)) bb

/-- Scanning any rows whose pixels all have zero alpha never changes the
scan state. -/
theorem scanRows_zero (dlen : Nat) (data : Nat → Nat) (stride w : Nat)
    (l : List Nat)
    (hl : ∀ y ∈ l, ∀ x < w, alphaAt dlen data stride x y = 0) :
    ∀ bb, l.foldl (fun bb y => scanRow dlen data stride w y bb) bb = bb := by
  induction l with
  | nil => intro bb; rfl
  | cons a t ih =>
    intro bb
    rw [List.foldl_cons,
      scanRow_zero dlen data stride w a bb (hl a (List.mem_cons_self _ _))]
    exact ih (fun y hy => hl y (List.mem_cons_of_mem _ hy)) bb

/-- Scanning the row that holds the single positive-alpha pixel, from the
initial sentinel state, lands the scan on that pixel. -/
theorem scanRow_single (dlen : Nat) (data : Nat → Nat) (stride w h y px : Nat)
    (hpx : px < w) (hy : y < h)
    (ha : 0 < alphaAt dlen data stride px y)
    (hz : ∀ x < w, x ≠ px → alphaAt dlen data stride x y = 0) :
    scanRow dlen data stride w y { top := h, bottom := 0, left := w, right := 0 }
      = { top := y, bottom := y, left := px, right := px } := by
  unfold scanRow
  have hsplit : List.range w = List.range' 0 px ++ List.range' px (w - px) := by
    rw [List.range_eq_range']
    have h2 := List.range'_append 0 px (w - px) 1
    simp only [one_mul, zero_add] at h2
    rw [show w - px + px = w by omega] at h2
    exact h2.symm
  rw [hsplit, List.foldl_append]
  have hpre : (List.range' 0 px).foldl (scanPixel dlen data stride y)
      { top := h, bottom := 0, left := w, right := 0 }
      = { top := h, bottom := 0, left := w, right := 0 } := by
    refine scanPixels_zero dlen data stride y _ ?_ _
    intro x hx
    obtain ⟨i, hi, rfl⟩ := List.mem_range'.mp hx
    refine hz _ (by omega) (by omega)
  rw [hpre]
  have hw1 : w - px = (w - px - 1) + 1 := by omega
  rw [hw1, List.range'_succ, List.foldl_cons]
  have hmid : scanPixel dlen data stride y
      { top := h, bottom := 0, left := w, right := 0 } px
      = { top := y, bottom := y, left := px, right := px } := by
    unfold scanPixel
    rw [if_pos ha]
    have ht : (if y < h then y else h) = y := if_pos hy
    have hl : (if px < w then px else w) = px := if_pos hpx
    have hr : (if 0 < px then px else 0) = px := by
      rcases Nat.eq_zero_or_pos px with h0 | h0
      · simp [h0]
      · simp [h0]
    simp only [ht, hl, hr]
  rw [hmid]
  refine scanPixels_zero dlen data stride y _ ?_ _
  intro x hx
  obtain ⟨i, hi, rfl⟩ := List.mem_range'.mp hx
  refine hz _ (by omega) (by omega)

/-- The whole scan of a frame with a single positive-alpha pixel returns
the one-pixel bounding box. -/
theorem scanAll_single_pixel (dlen : Nat) (data : Nat → Nat)
    (w h stride px py : Nat) (hpx : px < w) (hpy : py < h)
    (ha : 0 < alphaAt dlen data stride px py)
    (hz : ∀ x y, x < w → y < h → ¬ (x = px ∧ y = py) →
      alphaAt dlen data stride x y = 0) :
    scanAll dlen data w h stride
      = { top := py, bottom := py, left := px, right := px } := by
  unfold scanAll
  have hsplit : List.range h = List.range' 0 py ++ List.range' py (h - py) := by
    rw [List.range_eq_range']
    have h2 := List.range'_append 0 py (h - py) 1
    simp only [one_mul, zero_add] at h2
    rw [show h - py + py = h by omega] at h2
    exact h2.symm
  rw [hsplit, List.foldl_append]
  have hpre : (List.range' 0 py).foldl
      (fun bb y => scanRow dlen data stride w y bb)
      { top := h, bottom := 0, left := w, right := 0 }
      = { top := h, bottom := 0, left := w, right := 0 } := by
    refine scanRows_zero dlen data stride w _ ?_ _
    intro y hy x hx
    obtain ⟨i, hi, rfl⟩ := List.mem_range'.mp hy
    refine hz _ _ hx (by omega) (by omega)
  rw [hpre]
  have hh1 : h - py = (h - py - 1) + 1 := by omega
  rw [hh1, List.range'_succ, List.foldl_cons]
  rw [scanRow_single dlen data stride w h py px hpx hpy ha
    (fun x hx hne => hz x py hx hpy (by omega))]
  refine scanRows_zero dlen data stride w _ ?_ _
  intro y hy x hx
  obtain ⟨i, hi, rfl⟩ := List.mem_range'.mp hy
  refine hz _ _ hx (by omega) (by omega)

/-- C5: the alpha-crop detector returns FullFrame for every nonempty
buffer whose pixels are all opaque (alpha 255), Empty for every buffer
whose pixels are all transparent (alpha 0), and Cropped(42, 17, 1, 1) for
the 100 by 100 buffer (stride 400, 40000 bytes) whose only pixel with
positive alpha is at (42, 17). -/
theorem detect_alpha_crop_spec :
    (∀ (dlen : Nat) (data : Nat → Nat) (stride w h : Nat),
      0 < w → 0 < h →
      (∀ x y, x < w → y < h → alphaAt dlen data stride x y = 255) →
      detect_alpha_crop dlen data w h stride = CropResult.FullFrame) ∧
    (∀ (dlen : Nat) (data : Nat → Nat) (stride w h : Nat),
      (∀ x y, x < w → y < h → alphaAt dlen data stride x y = 0) →
      detect_alpha_crop dlen data w h stride = CropResult.Empty) ∧
    detect_alpha_crop 40000 (fun off => if off = 6971 then 255 else 0)
      100 100 400 = CropResult.Cropped 42 17 1 1 := by
  refine ⟨?_, ?_, ?_⟩
  · intro dlen data stride w h hw hh h255
    have hwh : ¬ (w = 0 ∨ h = 0) := by omega
    have hcor : alphaAt dlen data stride 0 0 = 255 ∧
        alphaAt dlen data stride (w - 1) 0 = 255 ∧
        alphaAt dlen data stride 0 (h - 1) = 255 ∧
        alphaAt dlen data stride (w - 1) (h - 1) = 255 :=
      ⟨h255 0 0 hw hh, h255 (w - 1) 0 (by omega) hh,
       h255 0 (h - 1) hw (by omega), h255 (w - 1) (h - 1) (by omega) (by omega)⟩
    unfold detect_alpha_crop
    rw [if_neg hwh, if_pos hcor]
  · intro dlen data stride w h h0
    by_cases hwh : w = 0 ∨ h = 0
    · unfold detect_alpha_crop
      rw [if_pos hwh]
    · have hw : 0 < w := by omega
      have hh : 0 < h := by omega
      have hcor : ¬ (alphaAt dlen data stride 0 0 = 255 ∧
          alphaAt dlen data stride (w - 1) 0 = 255 ∧
          alphaAt dlen data stride 0 (h - 1) = 255 ∧
          alphaAt dlen data stride (w - 1) (h - 1) = 255) := by
        intro hc
        have := h0 0 0 hw hh
        omega
      unfold detect_alpha_crop
      rw [if_neg hwh, if_neg hcor]
      simp only [scanAll_zero dlen data w h stride h0]
      rw [if_pos (Or.inl hh)]
  · have ha : 0 < alphaAt 40000 (fun off => if off = 6971 then 255 else 0)
        400 42 17 := by
      norm_num [alphaAt]
    have hz : ∀ x y, x < 100 → y < 100 → ¬ (x = 42 ∧ y = 17) →
        alphaAt 40000 (fun off => if off = 6971 then 255 else 0) 400 x y
          = 0 := by
      intro x y hx hy hne
      have hoff : y * 400 + x * 4 + 3 ≠ 6971 := by omega
      simp [alphaAt, hoff]
    have hcor : ¬ (alphaAt 40000 (fun off => if off = 6971 then 255 else 0)
          400 0 0 = 255 ∧
        alphaAt 40000 (fun off => if off = 6971 then 255 else 0)
          400 (100 - 1) 0 = 255 ∧
        alphaAt 40000 (fun off => if off = 6971 then 255 else 0)
          400 0 (100 - 1) = 255 ∧
        alphaAt 40000 (fun off => if off = 6971 then 255 else 0)
          400 (100 - 1) (100 - 1) = 255) := by
      intro hc
      have h1 := hz 0 0 (by omega) (by omega) (by omega)
      omega
    unfold detect_alpha_crop
    rw [if_neg (by omega), if_neg hcor]
    simp only [scanAll_single_pixel 40000
      (fun off => if off = 6971 then 255 else 0) 100 100 400 42 17
      (by omega) (by omega) ha hz]
    norm_num

/-- C5 witness: the two universally quantified parts applied to concrete
2 by 2 buffers (stride 8, 16 bytes): the all-opaque buffer is FullFrame
and the all-transparent buffer is Empty. -/
theorem detect_alpha_crop_witness :
    detect_alpha_crop 16 (fun _ => 255) 2 2 8 = CropResult.FullFrame ∧
    detect_alpha_crop 16 (fun _ => 0) 2 2 8 = CropResult.Empty :=
  ⟨detect_alpha_crop_spec.1 16 (fun _ => 255) 8 2 2 (by omega) (by omega)
      (fun x y hx hy => by
        have hb : y * 8 + x * 4 + 3 < 16 := by omega
        simp [alphaAt, hb]),
   detect_alpha_crop_spec.2.1 16 (fun _ => 0) 8 2 2
      (fun x y hx hy => by simp [alphaAt])⟩

/-! ## BGRA to I420 conversion (screen/capture.rs lines 1099-1151 and the
identical copy in screen/encoder.rs lines 87-139) -/

/-- Arithmetic right shift of an i32 by 8 as used in the BT.601 fixed
point formulas; for i32 this is floor division by 256 (Int.fdiv is floor
division). -/
def shr8 (x : Int) : Int := Int.fdiv x 256

/-- Arithmetic right shift of an i32 by 2 (the 2 by 2 chroma box
average). -/
def shr2 (x : Int) : Int := Int.fdiv x 4

/-- Rust as u8: the low byte of the i32 two's complement value, which is
the value modulo 256 (Int.emod always lands in [0, 256)). -/
def asU8 (x : Int) : Nat := (x.emod 256).toNat

/-- The Y sample of pixel (row, col) in bgra_to_i420: read B, G, R at
the pixel's byte offsets and apply Y = ((66 R + 129 G + 25 B + 128) >> 8)
+ 16.  The byte buffer is modelled by its byte function; the source's
length invariant (len = width * height * 4) keeps every access in
bounds. -/
def ySample (bgra : Nat → Nat) (width row col : Nat) : Nat :=
  let px := (row * width + col) * 4
  let b : Int := bgra px
  let g : Int := bgra (px + 1)
  let r : Int := bgra (px + 2)
  asU8 (shr8 (66 * r + 129 * g + 25 * b + 128) + 16)

/-- The U sample of chroma site (row, col): sum B, G, R over the 2 by 2
pixel block at (2 row, 2 col) (the dy/dx loop unrolled), average with
>> 2, and apply U = ((-38 R - 74 G + 112 B + 128) >> 8) + 128. -/
def uSample (bgra : Nat → Nat) (width row col : Nat) : Nat :=
  let src_row := row * 2
  let src_col := col * 2
  let p00 := (src_row * width + src_col) * 4
  let p01 := (src_row * width + (src_col + 1)) * 4
  let p10 := ((src_row + 1) * width + src_col) * 4
  let p11 := ((src_row + 1) * width + (src_col + 1)) * 4
  let b_sum : Int :=
    (bgra p00 : Int) + bgra p01 + bgra p10 + bgra p11
  let g_sum : Int :=
    (bgra (p00 + 1) : Int) + bgra (p01 + 1) + bgra (p10 + 1) + bgra (p11 + 1)
  let r_sum : Int :=
    (bgra (p00 + 2) : Int) + bgra (p01 + 2) + bgra (p10 + 2) + bgra (p11 + 2)
  let r := shr2 r_sum
  let g := shr2 g_sum
  let b := shr2 b_sum
  asU8 (shr8 (-38 * r - 74 * g + 112 * b + 128) + 128)

/-- The V sample of chroma site (row, col): same averages, then
V = ((112 R - 94 G - 18 B + 128) >> 8) + 128. -/
def vSample (bgra : Nat → Nat) (width row col : Nat) : Nat :=
  let src_row := row * 2
  let src_col := col * 2
  let p00 := (src_row * width + src_col) * 4
  let p01 := (src_row * width + (src_col + 1)) * 4
  let p10 := ((src_row + 1) * width + src_col) * 4
  let p11 := ((src_row + 1) * width + (src_col + 1)) * 4
  let b_sum : Int :=
    (bgra p00 : Int) + bgra p01 + bgra p10 + bgra p11
  let g_sum : Int :=
    (bgra (p00 + 1) : Int) + bgra (p01 + 1) + bgra (p10 + 1) + bgra (p11 + 1)
  let r_sum : Int :=
    (bgra (p00 + 2) : Int) + bgra (p01 + 2) + bgra (p10 + 2) + bgra (p11 + 2)
  let r := shr2 r_sum
  let g := shr2 g_sum
  let b := shr2 b_sum
  asU8 (shr8 (112 * r - 94 * g - 18 * b + 128) + 128)

/-- The Y plane: one sample per pixel, row major. -/
def yPlane (bgra : Nat → Nat) (width height : Nat) : List Nat :=
  (List.range height).flatMap
    (fun row => (List.range width).map (fun col => ySample bgra width row col))

/-- The U plane: one sample per 2 by 2 block, uv_height by uv_width. -/
def uPlane (bgra : Nat → Nat) (width height : Nat) : List Nat :=
  (List.range (height / 2)).flatMap
    (fun row => (List.range (width / 2)).map
      (fun col => uSample bgra width row col))

/-- The V plane: one sample per 2 by 2 block. -/
def vPlane (bgra : Nat → Nat) (width height : Nat) : List Nat :=
  (List.range (height / 2)).flatMap
    (fun row => (List.range (width / 2)).map
      (fun col => vSample bgra width row col))

/-- bgra_to_i420: the planar I420 byte vector [Y | U | V]. -/
def bgra_to_i420 (bgra : Nat → Nat) (width height : Nat) : List Nat :=
  yPlane bgra width height ++ uPlane bgra width height ++
    vPlane bgra width height

/-- C7: converting a solid-colour buffer with R = G = B = 128 (any even
width and height) yields 126 for every sample of the Y plane and 128 for
every sample of the U and V planes, by the fixed-point BT.601 formulas. -/
theorem bgra_to_i420_solid_grey (bgra : Nat → Nat) (w h : Nat)
    (hw : w % 2 = 0) (hh : h % 2 = 0)
    (hsolid : ∀ off, off % 4 < 3 → bgra off = 128) :
    (∀ v ∈ yPlane bgra w h, v = 126) ∧
    (∀ v ∈ uPlane bgra w h, v = 128) ∧
    (∀ v ∈ vPlane bgra w h, v = 128) ∧
    (∀ v ∈ bgra_to_i420 bgra w h, v = 126 ∨ v = 128) := by
  have hB0 : ∀ k, bgra (k * 4) = 128 := fun k => hsolid _ (by omega)
  have hB1 : ∀ k, bgra (k * 4 + 1) = 128 := fun k => hsolid _ (by omega)
  have hB2 : ∀ k, bgra (k * 4 + 2) = 128 := fun k => hsolid _ (by omega)
  have hy : ∀ v ∈ yPlane bgra w h, v = 126 := by
    intro v hv
    simp only [yPlane, List.mem_flatMap, List.mem_map, List.mem_range] at hv
    obtain ⟨row, _, col, _, rfl⟩ := hv
    simp only [ySample, hB0, hB1, hB2]
    decide
  have hu : ∀ v ∈ uPlane bgra w h, v = 128 := by
    intro v hv
    simp only [uPlane, List.mem_flatMap, List.mem_map, List.mem_range] at hv
    obtain ⟨row, _, col, _, rfl⟩ := hv
    simp only [uSample, hB0, hB1, hB2]
    decide
  have hv : ∀ v ∈ vPlane bgra w h, v = 128 := by
    intro v hv
    simp only [vPlane, List.mem_flatMap, List.mem_map, List.mem_range] at hv
    obtain ⟨row, _, col, _, rfl⟩ := hv
    simp only [vSample, hB0, hB1, hB2]
    decide
  refine ⟨hy, hu, hv, ?_⟩
  intro v hvv
  simp only [bgra_to_i420, List.mem_append] at hvv
  rcases hvv with (hvy | hvu) | hvw
  · exact Or.inl (hy v hvy)
  · exact Or.inr (hu v hvu)
  · exact Or.inr (hv v hvw)

/-- C7 witness: on the 2 by 2 all-128 buffer, the top-left Y sample is
126 and the single U and V samples are 128. -/
theorem bgra_to_i420_solid_grey_witness :
    ySample (fun _ => 128) 2 0 0 = 126 ∧
    uSample (fun _ => 128) 2 0 0 = 128 ∧
    vSample (fun _ => 128) 2 0 0 = 128 := by
  have hmy : ySample (fun _ => 128) 2 0 0 ∈ yPlane (fun _ => 128) 2 2 := by
    simp only [yPlane, List.mem_flatMap, List.mem_map, List.mem_range]
    exact ⟨0, by omega, 0, by omega, rfl⟩
  have hmu : uSample (fun _ => 128) 2 0 0 ∈ uPlane (fun _ => 128) 2 2 := by
    simp only [uPlane, List.mem_flatMap, List.mem_map, List.mem_range]
    exact ⟨0, by omega, 0, by omega, rfl⟩
  have hmv : vSample (fun _ => 128) 2 0 0 ∈ vPlane (fun _ => 128) 2 2 := by
    simp only [vPlane, List.mem_flatMap, List.mem_map, List.mem_range]
    exact ⟨0, by omega, 0, by omega, rfl⟩
  exact ⟨(bgra_to_i420_solid_grey (fun _ => 128) 2 2 rfl rfl
      (fun _ _ => rfl)).1 _ hmy,
    (bgra_to_i420_solid_grey (fun _ => 128) 2 2 rfl rfl
      (fun _ _ => rfl)).2.1 _ hmu,
    (bgra_to_i420_solid_grey (fun _ => 128) 2 2 rfl rfl
      (fun _ _ => rfl)).2.2.1 _ hmv⟩

/-- C2 witness: the one added track, evaluated concretely, is a sample
track with the H.264 mime type and not an Opus raw-RTP track. -/
theorem screen_peer_single_track_witness :
    ({ kind := TrackKind.sample, mime_type := "video/H264",
       track_id := "video", stream_id := "screen" } : LocalTrack).mime_type
      ≠ "audio/opus" :=
  screen_peer_adds_single_video_track.2.2.1 _
    (by simp [screenPeerLocalTracks])

/-- C9 witness: with one input device Mic and one output device Speakers,
the returned entries have is_default false. -/
theorem voice_list_devices_witness :
    ({ name := "Mic", is_default := false } : AudioDeviceInfo).is_default
      = false :=
  (voice_list_devices_never_default ["Mic"] ["Speakers"]).2.2.1 _
    (by simp [voice_list_devices])
